import Mathlib

/-!
Verification of `uncertainty_toolbox/metrics_scoring_rule.py` (proper scoring
rules: Gaussian NLL, Gaussian CRPS, check score, interval score), modelled
over the real numbers.  Each Python function has two numeric branches (a
numpy/scipy branch and a torch branch); both are embedded, with `_np` and
`_torch` suffixes, and the top-level functions dispatch through the shape
check.  The normal-distribution primitives (pdf, log-pdf, cdf, inverse cdf)
supplied by scipy/torch are modelled by their mathematical definitions.
-/

open Set MeasureTheory

/-- Standard normal probability density `φ(x) = exp(-x²/2) / √(2π)`
(the density used by `scipy.stats.norm` and `torch.distributions.Normal`
with `loc=0, scale=1`). -/
noncomputable def stdnormalPDF (x : ℝ) : ℝ :=
  Real.exp (-(x ^ 2) / 2) / Real.sqrt (2 * Real.pi)

/-- Standard normal cumulative distribution function
`Φ(x) = ∫_{-∞}^{x} φ(t) dt` (models `scipy.stats.norm.cdf` and
`torch.distributions.Normal(0,1).cdf`). -/
noncomputable def Phi (x : ℝ) : ℝ :=
  ∫ t in Iic x, stdnormalPDF t

/-- Standard normal quantile function, the inverse of `Phi`
(models the standard-normal inverse cdf underlying `scipy.stats.norm.ppf`
and `torch.distributions.Normal.icdf`). -/
noncomputable def PhiInv (q : ℝ) : ℝ :=
  Function.invFun Phi q

/-- Normal density with location and scale:
`scipy.stats.norm.pdf(x, loc, scale) = φ((x - loc)/scale) / scale`. -/
noncomputable def normalPDF (loc scale x : ℝ) : ℝ :=
  stdnormalPDF ((x - loc) / scale) / scale

/-- Normal quantile with location and scale:
`scipy.stats.norm.ppf(q, loc, scale) = loc + scale * Φ⁻¹(q)`
(also `torch.distributions.Normal(loc, scale).icdf(q)`). -/
noncomputable def ppf (q loc scale : ℝ) : ℝ :=
  loc + scale * PhiInv q

/-- Log-density of `torch.distributions.Normal(loc, scale)` at `x`, as torch
computes it: `-((x - loc)²)/(2·scale²) - log scale - log √(2π)`. -/
noncomputable def torchNormalLogProb (loc scale x : ℝ) : ℝ :=
  -((x - loc) ^ 2) / (2 * scale ^ 2) - Real.log scale - Real.log (Real.sqrt (2 * Real.pi))

/-- Model of `np.linspace a b n` (and `torch.linspace`): `n` points
`a + i·(b - a)/(n - 1)`; for `n = 1` the single point `a` (the division by
zero collapses to `0` in `ℝ`, matching numpy's special case), for `n = 0`
the empty list. -/
noncomputable def linspace (a b : ℝ) (n : ℕ) : List ℝ :=
  (List.range n).map (fun i : ℕ => a + (i : ℝ) * ((b - a) / ((n : ℝ) - 1)))

/-- Modelled from the spec: `sum_fn` from `uncertainty_toolbox.utils` is not
in the excerpt; per the spec it is the backend-dispatching sum reduction, so
over the reals it is the list sum. -/
noncomputable def sum_fn (l : List ℝ) : ℝ :=
  l.sum

/-- Modelled from the spec: `mean_fn` from `uncertainty_toolbox.utils` is not
in the excerpt; per the spec it is the backend-dispatching arithmetic-mean
reduction (used by the torch branches along the point dimension).  `np.mean`
is modelled by the same function. -/
noncomputable def mean_fn (l : List ℝ) : ℝ :=
  l.sum / l.length

/-- The numpy/scipy branch of `nll_gaussian` (lines 39, 47-52):
`residuals = y_pred - y_true`, `nll_list = stats.norm.logpdf(residuals,
scale=y_std)`, `nll = -1 * sum(nll_list)`, divided by `len(nll_list)` when
`scaled`. -/
noncomputable def nll_gaussian_np (y_pred y_std y_true : List ℝ) (scaled : Bool) : ℝ :=
  let residuals := List.zipWith (fun p t => p - t) y_pred y_true
  let nll_list := List.zipWith (fun r s => Real.log (normalPDF 0 s r)) residuals y_std
  let nll := -1 * sum_fn nll_list
  if scaled then nll / nll_list.length else nll

/-- The torch branch of `nll_gaussian` (lines 39, 42-52): the log-probability
comes from `Normal(loc=0, scale=y_std).log_prob(residuals)`. -/
noncomputable def nll_gaussian_torch (y_pred y_std y_true : List ℝ) (scaled : Bool) : ℝ :=
  let residuals := List.zipWith (fun p t => p - t) y_pred y_true
  let nll_list := List.zipWith (fun r s => torchNormalLogProb 0 s r) residuals y_std
  let nll := -1 * sum_fn nll_list
  if scaled then nll / nll_list.length else nll

/-- The numpy/scipy branch of `crps_gaussian` (lines 85-86, 94-105):
`z = (y_true - y_pred)/y_std`, `term_1 = 1/√π`, `term_2 = 2·pdf(z)`,
`term_3 = z·(2·cdf(z) - 1)`, `crps_list = -1·y_std·(term_1 - term_2 -
term_3)`, summed and divided by `len(crps_list)` when `scaled`. -/
noncomputable def crps_gaussian_np (y_pred y_std y_true : List ℝ) (scaled : Bool) : ℝ :=
  let y_standardized := List.zipWith3 (fun t p s => (t - p) / s) y_true y_pred y_std
  let term_1 := 1 / Real.sqrt Real.pi
  let crps_list := List.zipWith
    (fun s z => -1 * s * (term_1 - 2 * stdnormalPDF z - z * (2 * Phi z - 1)))
    y_std y_standardized
  let crps := sum_fn crps_list
  if scaled then crps / crps_list.length else crps

/-- The torch branch of `crps_gaussian` (lines 85-93, 98-105): `term_2` is
`2 · exp(Normal(0,1).log_prob(z))` and `term_3` uses `Normal(0,1).cdf`. -/
noncomputable def crps_gaussian_torch (y_pred y_std y_true : List ℝ) (scaled : Bool) : ℝ :=
  let y_standardized := List.zipWith3 (fun t p s => (t - p) / s) y_true y_pred y_std
  let term_1 := 1 / Real.sqrt Real.pi
  let crps_list := List.zipWith
    (fun s z => -1 * s *
      (term_1 - 2 * Real.exp (torchNormalLogProb 0 1 z) - z * (2 * Phi z - 1)))
    y_std y_standardized
  let crps := sum_fn crps_list
  if scaled then crps / crps_list.length else crps

/-- The numpy/scipy branch of `check_score` (lines 149, 159-172): for each
`q` in `np.linspace(start_q, end_q, resolution)`, `q_level =
stats.norm.ppf(q, loc=y_pred, scale=y_std)`, `diff = q_level - y_true`,
`mask = (diff >= 0) - q`, and the per-`q` score is `np.mean(mask * diff)`;
the per-`q` scores are summed and divided by `len(check_list)` when
`scaled`. -/
noncomputable def check_score_np (y_pred y_std y_true : List ℝ) (scaled : Bool)
    (start_q end_q : ℝ) (resolution : ℕ) : ℝ :=
  let test_qs := linspace start_q end_q resolution
  let check_list := test_qs.map (fun q =>
    let q_level := List.zipWith (fun p s => ppf q p s) y_pred y_std
    let diff := List.zipWith (fun ql t => ql - t) q_level y_true
    mean_fn (diff.map (fun d => ((if d ≥ 0 then (1 : ℝ) else 0) - q) * d)))
  let cs := sum_fn check_list
  if scaled then cs / check_list.length else cs

/-- The torch branch of `check_score` (lines 147, 151-158, 167-172): the
icdf is evaluated on the `resolution × N` broadcast grid and `mean_fn(·, 1)`
takes the mean over the point dimension, giving one entry per quantile
level. -/
noncomputable def check_score_torch (y_pred y_std y_true : List ℝ) (scaled : Bool)
    (start_q end_q : ℝ) (resolution : ℕ) : ℝ :=
  let test_qs := linspace start_q end_q resolution
  let check_list := test_qs.map (fun q =>
    let q_level := List.zipWith (fun p s => ppf q p s) y_pred y_std
    let diff := List.zipWith (fun ql t => ql - t) q_level y_true
    mean_fn (diff.map (fun d => ((if d ≥ 0 then (1 : ℝ) else 0) - q) * d)))
  let cs := sum_fn check_list
  if scaled then cs / check_list.length else cs

/-- The numpy/scipy branch of `interval_score` (lines 217, 233-255): for
each `p` in `np.linspace(start_p, end_p, resolution)`, the central
`p`-interval `[ppf(0.5 - p/2), ppf(0.5 + p/2)]` incurs its width plus
`2/(1-p)`-weighted penalties for true values outside it; per-`p` scores are
point-means, then summed and divided by `len(int_list)` when `scaled`. -/
noncomputable def interval_score_np (y_pred y_std y_true : List ℝ) (scaled : Bool)
    (start_p end_p : ℝ) (resolution : ℕ) : ℝ :=
  let test_ps := linspace start_p end_p resolution
  let int_list := test_ps.map (fun p =>
    let low_p := 0.5 - p / 2
    let high_p := 0.5 + p / 2
    let scores := List.zipWith3 (fun yp s t =>
      let pred_l := ppf low_p yp s
      let pred_u := ppf high_p yp s
      let below_l : ℝ := if pred_l - t > 0 then 1 else 0
      let above_u : ℝ := if t - pred_u > 0 then 1 else 0
      (pred_u - pred_l) + (2 / (1 - p)) * (pred_l - t) * below_l
        + (2 / (1 - p)) * (t - pred_u) * above_u) y_pred y_std y_true
    mean_fn scores)
  let s := sum_fn int_list
  if scaled then s / int_list.length else s

/-- The torch branch of `interval_score` (lines 215, 219-232, 250-255): the
icdfs are evaluated on the broadcast grid and `mean_fn(·, 1)` takes the mean
over the point dimension, giving one entry per interval probability. -/
noncomputable def interval_score_torch (y_pred y_std y_true : List ℝ) (scaled : Bool)
    (start_p end_p : ℝ) (resolution : ℕ) : ℝ :=
  let test_ps := linspace start_p end_p resolution
  let int_list := test_ps.map (fun p =>
    let low_p := 0.5 - p / 2
    let high_p := 0.5 + p / 2
    let scores := List.zipWith3 (fun yp s t =>
      let pred_l := ppf low_p yp s
      let pred_u := ppf high_p yp s
      let below_l : ℝ := if pred_l - t > 0 then 1 else 0
      let above_u : ℝ := if t - pred_u > 0 then 1 else 0
      (pred_u - pred_l) + (2 / (1 - p)) * (pred_l - t) * below_l
        + (2 / (1 - p)) * (t - pred_u) * above_u) y_pred y_std y_true
    mean_fn scores)
  let s := sum_fn int_list
  if scaled then s / int_list.length else s

/-- A numpy array / torch tensor as passed to the four functions: a shape
(list of dimension sizes) together with the flat data.  The scoring
functions require the shape to be one-dimensional. -/
structure NDArray where
  shape : List ℕ
  data : List ℝ

/-- Error raised by the input-validation helper when the inputs are not flat
arrays of identical shape. -/
inductive ScoreError where
  | ShapeMismatch
deriving DecidableEq

/-- Modelled from the spec: `assert_is_flat_same_shape` from
`uncertainty_toolbox.utils` is not in the excerpt; per the spec it asserts
that all inputs are one-dimensional and identically shaped, raising a
shape-mismatch error otherwise. -/
def assert_is_flat_same_shape (a b c : NDArray) : Bool :=
  a.shape.length == 1 && b.shape == a.shape && c.shape == a.shape

/-- `nll_gaussian` (lines 14-54): shape check first, then the score on the
flat data (reference numpy branch). -/
noncomputable def nll_gaussian (y_pred y_std y_true : NDArray) (scaled : Bool) :
    Except ScoreError ℝ :=
  if assert_is_flat_same_shape y_pred y_std y_true then
    Except.ok (nll_gaussian_np y_pred.data y_std.data y_true.data scaled)
  else
    Except.error ScoreError.ShapeMismatch

/-- `crps_gaussian` (lines 57-105): shape check first, then the score on the
flat data (reference numpy branch). -/
noncomputable def crps_gaussian (y_pred y_std y_true : NDArray) (scaled : Bool) :
    Except ScoreError ℝ :=
  if assert_is_flat_same_shape y_pred y_std y_true then
    Except.ok (crps_gaussian_np y_pred.data y_std.data y_true.data scaled)
  else
    Except.error ScoreError.ShapeMismatch

/-- `check_score` (lines 108-172): shape check first, then the score on the
flat data (reference numpy branch). -/
noncomputable def check_score (y_pred y_std y_true : NDArray) (scaled : Bool)
    (start_q end_q : ℝ) (resolution : ℕ) : Except ScoreError ℝ :=
  if assert_is_flat_same_shape y_pred y_std y_true then
    Except.ok (check_score_np y_pred.data y_std.data y_true.data scaled start_q end_q resolution)
  else
    Except.error ScoreError.ShapeMismatch

/-- `interval_score` (lines 175-255): shape check first, then the score on
the flat data (reference numpy branch). -/
noncomputable def interval_score (y_pred y_std y_true : NDArray) (scaled : Bool)
    (start_p end_p : ℝ) (resolution : ℕ) : Except ScoreError ℝ :=
  if assert_is_flat_same_shape y_pred y_std y_true then
    Except.ok (interval_score_np y_pred.data y_std.data y_true.data scaled start_p end_p resolution)
  else
    Except.error ScoreError.ShapeMismatch

/-- The per-point CRPS contribution exactly as the spec writes it:
`-y_std·(1/√π - 2·φ(z) - z·(2·Φ(z) - 1))` with `z = (y_true - y_pred)/y_std`. -/
noncomputable def crpsPointSpec (p s t : ℝ) : ℝ :=
  -s * (1 / Real.sqrt Real.pi - 2 * stdnormalPDF ((t - p) / s)
    - ((t - p) / s) * (2 * Phi ((t - p) / s) - 1))

/-- Per-point pinball contribution of `check_score` at quantile level `q`,
as the spec writes it: `(indicator(F⁻¹(q) - y_true ≥ 0) - q)·(F⁻¹(q) -
y_true)`. -/
noncomputable def checkPointSpec (q p s t : ℝ) : ℝ :=
  ((if ppf q p s - t ≥ 0 then (1 : ℝ) else 0) - q) * (ppf q p s - t)

/-- The spec's two-stage formulation of `check_score` on `n` points: for
each of the `resolution` quantile levels, the per-point contributions are
averaged over the `n` points first; the per-quantile means are then summed,
and `scaled` divides by the number of quantile levels. -/
noncomputable def check_score_spec (y_pred y_std y_true : List ℝ) (scaled : Bool)
    (start_q end_q : ℝ) (resolution : ℕ) (n : ℕ) : ℝ :=
  let qs := linspace start_q end_q resolution
  let per_q := qs.map (fun q =>
    (List.zipWith3 (fun p s t => checkPointSpec q p s t) y_pred y_std y_true).sum / n)
  let total := per_q.sum
  if scaled then total / (resolution : ℝ) else total

-- Basic facts about the standard normal density.

theorem stdnormalPDF_nonneg (x : ℝ) : 0 ≤ stdnormalPDF x := by
  unfold stdnormalPDF
  positivity

theorem stdnormalPDF_even (x : ℝ) : stdnormalPDF (-x) = stdnormalPDF x := by
  unfold stdnormalPDF
  ring_nf

theorem sqrt_two_pi_pos : 0 < Real.sqrt (2 * Real.pi) :=
  Real.sqrt_pos.mpr (by positivity)

theorem stdnormalPDF_zero : stdnormalPDF 0 = 1 / Real.sqrt (2 * Real.pi) := by
  unfold stdnormalPDF
  norm_num

theorem stdnormalPDF_continuous : Continuous stdnormalPDF := by
  unfold stdnormalPDF
  fun_prop

theorem stdnormalPDF_eq_gauss :
    stdnormalPDF = fun x => Real.exp (-(1 / 2) * x ^ 2) / Real.sqrt (2 * Real.pi) := by
  funext x
  unfold stdnormalPDF
  ring_nf

theorem stdnormalPDF_integrable : MeasureTheory.Integrable stdnormalPDF := by
  rw [stdnormalPDF_eq_gauss]
  exact (integrable_exp_neg_mul_sq (by norm_num : (0 : ℝ) < 1 / 2)).div_const _

theorem stdnormalPDF_integral : ∫ x, stdnormalPDF x = 1 := by
  rw [stdnormalPDF_eq_gauss]
  rw [MeasureTheory.integral_div, integral_gaussian]
  rw [show Real.pi / (1 / 2) = 2 * Real.pi by ring]
  exact div_self (ne_of_gt sqrt_two_pi_pos)

theorem Phi_add_Ioi (x : ℝ) : Phi x + ∫ t in Ioi x, stdnormalPDF t = 1 := by
  unfold Phi
  rw [intervalIntegral.integral_Iic_add_Ioi stdnormalPDF_integrable.integrableOn
    stdnormalPDF_integrable.integrableOn]
  exact stdnormalPDF_integral

theorem Phi_neg (x : ℝ) : Phi (-x) = 1 - Phi x := by
  have h1 : Phi (-x) = ∫ t in Ioi x, stdnormalPDF t := by
    have h := integral_comp_neg_Iic (-x) stdnormalPDF
    simp_rw [stdnormalPDF_even] at h
    unfold Phi
    rw [h, neg_neg]
  have h2 := Phi_add_Ioi x
  linarith

theorem Phi_zero : Phi 0 = 1 / 2 := by
  have h := Phi_neg 0
  rw [neg_zero] at h
  linarith

theorem Phi_mono : Monotone Phi := by
  intro x y hxy
  unfold Phi
  refine MeasureTheory.setIntegral_mono_set stdnormalPDF_integrable.integrableOn
    (Filter.Eventually.of_forall fun t => stdnormalPDF_nonneg t) ?_
  exact Filter.Eventually.of_forall (fun t ht => Iic_subset_Iic.mpr hxy ht)

theorem Phi_eq_interval (x : ℝ) : Phi x = Phi 0 + ∫ t in (0 : ℝ)..x, stdnormalPDF t := by
  unfold Phi
  rw [← intervalIntegral.integral_Iic_sub_Iic stdnormalPDF_integrable.integrableOn
    stdnormalPDF_integrable.integrableOn]
  ring

theorem Phi_hasDerivAt (x : ℝ) : HasDerivAt Phi (stdnormalPDF x) x := by
  have key : HasDerivAt (fun u => Phi 0 + ∫ t in (0 : ℝ)..u, stdnormalPDF t)
      (stdnormalPDF x) x := by
    refine HasDerivAt.const_add _ ?_
    exact intervalIntegral.integral_hasDerivAt_right
      (stdnormalPDF_continuous.intervalIntegrable 0 x)
      (stdnormalPDF_continuous.stronglyMeasurable.stronglyMeasurableAtFilter)
      stdnormalPDF_continuous.continuousAt
  have hfun : Phi = fun u => Phi 0 + ∫ t in (0 : ℝ)..u, stdnormalPDF t :=
    funext Phi_eq_interval
  rw [hfun]
  exact key

theorem stdnormalPDF_hasDerivAt (x : ℝ) :
    HasDerivAt stdnormalPDF (-x * stdnormalPDF x) x := by
  have h1 : HasDerivAt (fun u : ℝ => -(u ^ 2) / 2) (-x) x := by
    have h := ((hasDerivAt_pow 2 x).neg).div_const 2
    convert h using 1
    push_cast
    ring
  have h3 := (h1.exp).div_const (Real.sqrt (2 * Real.pi))
  have h4 : HasDerivAt (fun u : ℝ => Real.exp (-(u ^ 2) / 2) / Real.sqrt (2 * Real.pi))
      (-x * stdnormalPDF x) x := by
    convert h3 using 1
    unfold stdnormalPDF
    ring
  exact h4

/-- The parenthesized factor of the per-point CRPS term in the source:
`1/√π - 2·φ(z) - z·(2·Φ(z) - 1)`. -/
noncomputable def crpsAux (z : ℝ) : ℝ :=
  1 / Real.sqrt Real.pi - 2 * stdnormalPDF z - z * (2 * Phi z - 1)

theorem crpsAux_hasDerivAt (x : ℝ) : HasDerivAt crpsAux (1 - 2 * Phi x) x := by
  have h1 := (stdnormalPDF_hasDerivAt x).const_mul (2 : ℝ)
  have ha := ((Phi_hasDerivAt x).const_mul (2 : ℝ)).sub_const 1
  have h2 := (hasDerivAt_id x).mul ha
  have h0 : HasDerivAt (fun _ : ℝ => 1 / Real.sqrt Real.pi) 0 x := hasDerivAt_const x _
  have h := (h0.sub h1).sub h2
  have hgoal : HasDerivAt (fun u : ℝ =>
      1 / Real.sqrt Real.pi - 2 * stdnormalPDF u - u * (2 * Phi u - 1))
      (1 - 2 * Phi x) x := by
    convert h using 1
    simp only [id_eq]
    ring
  exact hgoal

theorem crpsAux_even (z : ℝ) : crpsAux (-z) = crpsAux z := by
  unfold crpsAux
  rw [stdnormalPDF_even, Phi_neg]
  ring

theorem sqrt_pi_pos : 0 < Real.sqrt Real.pi :=
  Real.sqrt_pos.mpr Real.pi_pos

theorem crpsAux_zero : crpsAux 0 = (1 - Real.sqrt 2) / Real.sqrt Real.pi := by
  unfold crpsAux
  rw [stdnormalPDF_zero]
  rw [Real.sqrt_mul (by norm_num : (0 : ℝ) ≤ 2)]
  rw [show 2 * (1 / (Real.sqrt 2 * Real.sqrt Real.pi)) =
    2 / Real.sqrt 2 / Real.sqrt Real.pi by ring]
  rw [Real.div_sqrt]
  ring

theorem crpsAux_zero_nonpos : crpsAux 0 ≤ 0 := by
  rw [crpsAux_zero]
  apply div_nonpos_of_nonpos_of_nonneg _ (le_of_lt sqrt_pi_pos)
  have h : (1 : ℝ) ≤ Real.sqrt 2 := by
    rw [show (1 : ℝ) = Real.sqrt 1 by simp]
    exact Real.sqrt_le_sqrt (by norm_num)
  linarith

theorem crpsAux_nonpos (z : ℝ) : crpsAux z ≤ 0 := by
  have key : ∀ y : ℝ, 0 ≤ y → crpsAux y ≤ 0 := by
    intro y hy
    have anti : AntitoneOn crpsAux (Ici (0 : ℝ)) := by
      apply antitoneOn_of_deriv_nonpos (convex_Ici 0)
      · exact fun u _ =>
          (crpsAux_hasDerivAt u).differentiableAt.continuousAt.continuousWithinAt
      · exact fun u _ =>
          (crpsAux_hasDerivAt u).differentiableAt.differentiableWithinAt
      · intro u hu
        rw [(crpsAux_hasDerivAt u).deriv]
        rw [interior_Ici] at hu
        have hPhi : (1 : ℝ) / 2 ≤ Phi u := by
          have h := Phi_mono (le_of_lt hu)
          rwa [Phi_zero] at h
        linarith
    have h := anti left_mem_Ici (mem_Ici.mpr hy) hy
    exact le_trans h crpsAux_zero_nonpos
  rcases le_or_lt 0 z with hz | hz
  · exact key z hz
  · have h := key (-z) (by linarith)
    rwa [crpsAux_even] at h

-- List-level helper lemmas.

theorem length_zipWith3 {α β γ δ : Type} (f : α → β → γ → δ) :
    ∀ (as : List α) (bs : List β) (cs : List γ),
      (List.zipWith3 f as bs cs).length = min as.length (min bs.length cs.length)
  | [], _, _ => by simp [List.zipWith3]
  | _ :: _, [], _ => by simp [List.zipWith3]
  | _ :: _, _ :: _, [] => by simp [List.zipWith3]
  | a :: as, b :: bs, c :: cs => by
    simp only [List.zipWith3, List.length_cons, length_zipWith3 f as bs cs]
    omega

theorem linspace_length (a b : ℝ) (n : ℕ) : (linspace a b n).length = n := by
  unfold linspace
  rw [List.length_map, List.length_range]

theorem zipWith3_rev {α β γ δ : Type} (f : α → β → γ → δ) :
    ∀ (as : List α) (bs : List β) (cs : List γ),
      List.zipWith3 f as bs cs = List.zipWith3 (fun c b a => f a b c) cs bs as
  | [], bs, cs => by cases bs <;> cases cs <;> simp [List.zipWith3]
  | _ :: _, [], cs => by cases cs <;> simp [List.zipWith3]
  | _ :: _, _ :: _, [] => by simp [List.zipWith3]
  | a :: as, b :: bs, c :: cs => by
    simp [List.zipWith3, zipWith3_rev f as bs cs]

theorem zipWith3_map12 {α α' β β' γ δ : Type} (f : α' → β' → γ → δ)
    (g : α → α') (h : β → β') :
    ∀ (as : List α) (bs : List β) (cs : List γ),
      List.zipWith3 f (as.map g) (bs.map h) cs
        = List.zipWith3 (fun a b c => f (g a) (h b) c) as bs cs
  | [], _, _ => by simp [List.zipWith3]
  | _ :: _, [], _ => by simp [List.zipWith3]
  | _ :: _, _ :: _, [] => by simp [List.zipWith3]
  | a :: as, b :: bs, c :: cs => by
    simp [List.zipWith3, zipWith3_map12 f g h as bs cs]

theorem zipWith3_map13 {α α' β γ γ' δ : Type} (f : α' → β → γ' → δ)
    (g : α → α') (h : γ → γ') :
    ∀ (as : List α) (bs : List β) (cs : List γ),
      List.zipWith3 f (as.map g) bs (cs.map h)
        = List.zipWith3 (fun a b c => f (g a) b (h c)) as bs cs
  | [], _, _ => by simp [List.zipWith3]
  | _ :: _, [], _ => by simp [List.zipWith3]
  | _ :: _, _ :: _, [] => by simp [List.zipWith3]
  | a :: as, b :: bs, c :: cs => by
    simp [List.zipWith3, zipWith3_map13 f g h as bs cs]

/-- The `crps_list` of the source, collapsed to a single elementwise pass. -/
theorem crps_list_collapse (yp ys yt : List ℝ) :
    List.zipWith
      (fun s z => -1 * s * (1 / Real.sqrt Real.pi - 2 * stdnormalPDF z - z * (2 * Phi z - 1)))
      ys (List.zipWith3 (fun t p s => (t - p) / s) yt yp ys)
    = List.zipWith3 (fun p s t => -1 * s * crpsAux ((t - p) / s)) yp ys yt := by
  induction yp generalizing ys yt with
  | nil => cases ys <;> cases yt <;> simp [List.zipWith3]
  | cons p ps ih =>
    cases ys with
    | nil => cases yt <;> simp [List.zipWith3]
    | cons s ss =>
      cases yt with
      | nil => simp [List.zipWith3]
      | cons t ts => simp only [List.zipWith3, List.zipWith_cons_cons, ih, crpsAux]

/-- Same collapse for the torch branch of `crps_gaussian`. -/
theorem crps_list_collapse_torch (yp ys yt : List ℝ) :
    List.zipWith
      (fun s z => -1 * s *
        (1 / Real.sqrt Real.pi - 2 * Real.exp (torchNormalLogProb 0 1 z) - z * (2 * Phi z - 1)))
      ys (List.zipWith3 (fun t p s => (t - p) / s) yt yp ys)
    = List.zipWith3
        (fun p s t => -1 * s *
          (1 / Real.sqrt Real.pi - 2 * Real.exp (torchNormalLogProb 0 1 ((t - p) / s))
            - ((t - p) / s) * (2 * Phi ((t - p) / s) - 1))) yp ys yt := by
  induction yp generalizing ys yt with
  | nil => cases ys <;> cases yt <;> simp [List.zipWith3]
  | cons p ps ih =>
    cases ys with
    | nil => cases yt <;> simp [List.zipWith3]
    | cons s ss =>
      cases yt with
      | nil => simp [List.zipWith3]
      | cons t ts => simp only [List.zipWith3, List.zipWith_cons_cons, ih]

/-- The per-quantile row of `check_score`, collapsed to a single elementwise
pass over the three input lists. -/
theorem check_row_collapse (q : ℝ) (yp ys yt : List ℝ) :
    (List.zipWith (fun ql t => ql - t)
        (List.zipWith (fun p s => ppf q p s) yp ys) yt).map
      (fun d => ((if d ≥ 0 then (1 : ℝ) else 0) - q) * d)
    = List.zipWith3 (fun p s t => checkPointSpec q p s t) yp ys yt := by
  induction yp generalizing ys yt with
  | nil => cases ys <;> cases yt <;> simp [List.zipWith3]
  | cons p ps ih =>
    cases ys with
    | nil => cases yt <;> simp [List.zipWith3]
    | cons s ss =>
      cases yt with
      | nil => simp [List.zipWith3]
      | cons t ts =>
        simp only [List.zipWith3, List.zipWith_cons_cons, List.map_cons, ih, checkPointSpec]

theorem torch_exp_log_prob (z : ℝ) :
    Real.exp (torchNormalLogProb 0 1 z) = stdnormalPDF z := by
  unfold torchNormalLogProb stdnormalPDF
  rw [Real.log_one]
  rw [show -((z - 0) ^ 2) / (2 * 1 ^ 2) - 0 - Real.log (Real.sqrt (2 * Real.pi))
      = -(z ^ 2) / 2 - Real.log (Real.sqrt (2 * Real.pi)) by ring]
  rw [Real.exp_sub, Real.exp_log sqrt_two_pi_pos]

theorem logpdf_eq_torch (s r : ℝ) (hs : 0 < s) :
    Real.log (normalPDF 0 s r) = torchNormalLogProb 0 s r := by
  have hs' : s ≠ 0 := ne_of_gt hs
  unfold normalPDF stdnormalPDF torchNormalLogProb
  rw [Real.log_div (by positivity) hs']
  rw [Real.log_div (by positivity) (ne_of_gt sqrt_two_pi_pos)]
  rw [Real.log_exp]
  field_simp
  ring

theorem nll_list_congr (rs ss : List ℝ) (hs : ∀ s ∈ ss, 0 < s) :
    List.zipWith (fun r s => Real.log (normalPDF 0 s r)) rs ss
    = List.zipWith (fun r s => torchNormalLogProb 0 s r) rs ss := by
  induction rs generalizing ss with
  | nil => simp
  | cons r rs' ih =>
    cases ss with
    | nil => simp
    | cons s ss' =>
      simp only [List.zipWith_cons_cons]
      rw [logpdf_eq_torch s r (hs s (List.mem_cons_self s ss')),
        ih ss' (fun x hx => hs x (List.mem_cons_of_mem _ hx))]

theorem count_smul_div (s : ℝ) (n : ℕ) (hs : n = 0 → s = 0) : (n : ℝ) * (s / n) = s := by
  rcases Nat.eq_zero_or_pos n with h0 | hpos
  · simp [h0, hs h0]
  · have hn : (n : ℝ) ≠ 0 := Nat.cast_ne_zero.mpr hpos.ne'
    rw [mul_comm, div_mul_cancel₀ s hn]

theorem crps_gaussian_np_zero_input :
    crps_gaussian_np [0, 0, 0] [1, 1, 1] [0, 0, 0] true
      = (Real.sqrt 2 - 1) / Real.sqrt Real.pi := by
  have hx : 2 * stdnormalPDF 0 = Real.sqrt 2 / Real.sqrt Real.pi := by
    rw [stdnormalPDF_zero, Real.sqrt_mul (by norm_num : (0 : ℝ) ≤ 2)]
    rw [show 2 * (1 / (Real.sqrt 2 * Real.sqrt Real.pi))
        = 2 / Real.sqrt 2 / Real.sqrt Real.pi by ring]
    rw [Real.div_sqrt]
  unfold crps_gaussian_np sum_fn
  norm_num [List.zipWith3, hx]
  ring_nf

theorem nll_gaussian_np_zero_input :
    nll_gaussian_np [0, 0, 0] [1, 1, 1] [0, 0, 0] true = 0.5 * Real.log (2 * Real.pi) := by
  unfold nll_gaussian_np sum_fn normalPDF stdnormalPDF
  norm_num
  have h1 : (Real.sqrt Real.pi)⁻¹ * (Real.sqrt 2)⁻¹ = (Real.sqrt (2 * Real.pi))⁻¹ := by
    rw [Real.sqrt_mul (by norm_num : (0 : ℝ) ≤ 2), mul_inv]
    ring
  rw [h1, Real.log_inv, Real.log_sqrt (by positivity)]
  ring

/-- C7: on `y_pred = [0,0,0]`, `y_std = [1,1,1]`, `y_true = [0,0,0]` with
`scaled = true`, `nll_gaussian` returns `0.5 · log(2π)`, the negative
log-density of a standard normal at `0`. -/
theorem nll_gaussian_zero_input_value :
    nll_gaussian ⟨[3], [0, 0, 0]⟩ ⟨[3], [1, 1, 1]⟩ ⟨[3], [0, 0, 0]⟩ true
      = Except.ok (0.5 * Real.log (2 * Real.pi)) := by
  simp only [nll_gaussian, assert_is_flat_same_shape]
  norm_num [nll_gaussian_np_zero_input]

/-- C1 (counterexample): on `y_pred = [0,0,0]`, `y_std = [1,1,1]`,
`y_true = [0,0,0]` with `scaled = true`, `crps_gaussian` does NOT return
`1/√π`: the code computes `2φ(0) - 1/√π = (√2 - 1)/√π ≈ 0.2337` per point,
and `(√2 - 1)/√π ≠ 1/√π`. -/
theorem crps_gaussian_zero_input_ne :
    crps_gaussian ⟨[3], [0, 0, 0]⟩ ⟨[3], [1, 1, 1]⟩ ⟨[3], [0, 0, 0]⟩ true
      ≠ Except.ok (1 / Real.sqrt Real.pi) := by
  have hwrap : crps_gaussian ⟨[3], [0, 0, 0]⟩ ⟨[3], [1, 1, 1]⟩ ⟨[3], [0, 0, 0]⟩ true
      = Except.ok ((Real.sqrt 2 - 1) / Real.sqrt Real.pi) := by
    simp only [crps_gaussian, assert_is_flat_same_shape]
    norm_num [crps_gaussian_np_zero_input]
  rw [hwrap]
  intro h
  have h2 : (Real.sqrt 2 - 1) / Real.sqrt Real.pi = 1 / Real.sqrt Real.pi := Except.ok.inj h
  have hpi := sqrt_pi_pos
  rw [div_eq_div_iff hpi.ne' hpi.ne'] at h2
  have hlt : Real.sqrt 2 < 2 := by
    nlinarith [Real.sq_sqrt (by norm_num : (0 : ℝ) ≤ 2), Real.sqrt_nonneg 2]
  nlinarith

/-- C1 (amended): on `y_pred = [0,0,0]`, `y_std = [1,1,1]`, `y_true =
[0,0,0]` with `scaled = true`, `crps_gaussian` returns
`2φ(0) - 1/√π = (√2 - 1)/√π ≈ 0.2337` (not `1/√π ≈ 0.5642`). -/
theorem crps_gaussian_zero_input_value :
    crps_gaussian ⟨[3], [0, 0, 0]⟩ ⟨[3], [1, 1, 1]⟩ ⟨[3], [0, 0, 0]⟩ true
      = Except.ok ((Real.sqrt 2 - 1) / Real.sqrt Real.pi) := by
  simp only [crps_gaussian, assert_is_flat_same_shape]
  norm_num [crps_gaussian_np_zero_input]

theorem linspace_zero (a b : ℝ) : linspace a b 0 = [] := by
  unfold linspace
  simp

theorem crpsPointSpec_eq_aux :
    (fun p s t => -1 * s * crpsAux ((t - p) / s)) = crpsPointSpec := by
  funext p s t
  unfold crpsPointSpec crpsAux
  ring

/-- C2: for equal-length inputs of length `N` with positive `y_std`, the
per-point contribution of `crps_gaussian` is
`-y_std[i]·(1/√π - 2φ(z[i]) - z[i]·(2Φ(z[i]) - 1))` with
`z[i] = (y_true[i] - y_pred[i])/y_std[i]`, and the result is the sum of
these contributions, divided by `N` when `scaled = true`. -/
theorem crps_gaussian_pointwise_formula (yp ys yt : List ℝ) (n : ℕ)
    (h1 : yp.length = n) (h2 : ys.length = n) (h3 : yt.length = n)
    (hs : ∀ s ∈ ys, 0 < s) (scaled : Bool) :
    crps_gaussian_np yp ys yt scaled =
      if scaled then (List.zipWith3 crpsPointSpec yp ys yt).sum / n
      else (List.zipWith3 crpsPointSpec yp ys yt).sum := by
  have _hs := hs
  simp only [crps_gaussian_np, sum_fn]
  rw [crps_list_collapse, crpsPointSpec_eq_aux]
  have hlen : (List.zipWith3 crpsPointSpec yp ys yt).length = n := by
    rw [length_zipWith3, h1, h2, h3]
    simp
  rw [hlen]

theorem crps_gaussian_pointwise_formula_witness :
    crps_gaussian_np [1, 2] [1, 1] [0, 1] true =
      if true then (List.zipWith3 crpsPointSpec [1, 2] [1, 1] [0, 1]).sum / (2 : ℕ)
      else (List.zipWith3 crpsPointSpec [1, 2] [1, 1] [0, 1]).sum :=
  crps_gaussian_pointwise_formula [1, 2] [1, 1] [0, 1] 2 rfl rfl rfl
    (by intro s hsmem; simp only [List.mem_cons, List.not_mem_nil, or_false] at hsmem
        rcases hsmem with h | h <;> rw [h] <;> norm_num) true

/-- C3: with `scaled = false` each function returns the count of aggregated
terms times its `scaled = true` value: `N` (the common input length) for
`nll_gaussian` and `crps_gaussian`, and `resolution` (the number of
quantile levels / intervals) for `check_score` and `interval_score`. -/
theorem scaling_law (yp ys yt : List ℝ) (n : ℕ)
    (h1 : yp.length = n) (h2 : ys.length = n) (h3 : yt.length = n)
    (q0 q1 p0 p1 : ℝ) (res : ℕ) :
    nll_gaussian_np yp ys yt false = n * nll_gaussian_np yp ys yt true ∧
    crps_gaussian_np yp ys yt false = n * crps_gaussian_np yp ys yt true ∧
    check_score_np yp ys yt false q0 q1 res
      = res * check_score_np yp ys yt true q0 q1 res ∧
    interval_score_np yp ys yt false p0 p1 res
      = res * interval_score_np yp ys yt true p0 p1 res := by
  refine ⟨?_, ?_, ?_, ?_⟩
  · simp only [nll_gaussian_np, sum_fn, reduceIte]
    rw [List.length_zipWith, List.length_zipWith, h1, h2, h3, Nat.min_self, Nat.min_self]
    refine (count_smul_div _ n ?_).symm
    intro h0
    have hys : ys = [] := List.length_eq_zero.mp (by rw [h2, h0])
    rw [hys]
    simp
  · simp only [crps_gaussian_np, sum_fn, reduceIte]
    rw [List.length_zipWith, length_zipWith3, h1, h2, h3, Nat.min_self, Nat.min_self,
      Nat.min_self]
    refine (count_smul_div _ n ?_).symm
    intro h0
    have hys : ys = [] := List.length_eq_zero.mp (by rw [h2, h0])
    rw [hys]
    simp
  · simp only [check_score_np, sum_fn, reduceIte]
    rw [List.length_map, linspace_length]
    refine (count_smul_div _ res ?_).symm
    intro h0
    rw [h0, linspace_zero]
    simp
  · simp only [interval_score_np, sum_fn, reduceIte]
    rw [List.length_map, linspace_length]
    refine (count_smul_div _ res ?_).symm
    intro h0
    rw [h0, linspace_zero]
    simp

theorem scaling_law_witness :
    nll_gaussian_np [1, 2] [1, 1] [0, 1] false
      = 2 * nll_gaussian_np [1, 2] [1, 1] [0, 1] true ∧
    crps_gaussian_np [1, 2] [1, 1] [0, 1] false
      = 2 * crps_gaussian_np [1, 2] [1, 1] [0, 1] true ∧
    check_score_np [1, 2] [1, 1] [0, 1] false 0.1 0.9 3
      = 3 * check_score_np [1, 2] [1, 1] [0, 1] true 0.1 0.9 3 ∧
    interval_score_np [1, 2] [1, 1] [0, 1] false 0.1 0.9 3
      = 3 * interval_score_np [1, 2] [1, 1] [0, 1] true 0.1 0.9 3 := by
  have h := scaling_law [1, 2] [1, 1] [0, 1] 2 rfl rfl rfl 0.1 0.9 0.1 0.9 3
  exact_mod_cast h

theorem crps_sum_nonneg (yp ys yt : List ℝ) (hs : ∀ s ∈ ys, 0 < s) :
    0 ≤ (List.zipWith3 (fun p s t => -1 * s * crpsAux ((t - p) / s)) yp ys yt).sum := by
  induction yp generalizing ys yt with
  | nil => cases ys <;> cases yt <;> simp [List.zipWith3]
  | cons p ps ih =>
    cases ys with
    | nil => cases yt <;> simp [List.zipWith3]
    | cons s ss =>
      cases yt with
      | nil => simp [List.zipWith3]
      | cons t ts =>
        simp only [List.zipWith3, List.sum_cons]
        have hterm : 0 ≤ -1 * s * crpsAux ((t - p) / s) := by
          have hpos := hs s (List.mem_cons_self s ss)
          have hneg := crpsAux_nonpos ((t - p) / s)
          nlinarith
        have htail := ih ss ts (fun x hx => hs x (List.mem_cons_of_mem _ hx))
        linarith

/-- C5: `crps_gaussian` is non-negative on every input with positive
`y_std`, for both `scaled = true` and `scaled = false`. -/
theorem crps_gaussian_nonneg (yp ys yt : List ℝ)
    (hs : ∀ s ∈ ys, 0 < s) (scaled : Bool) :
    0 ≤ crps_gaussian_np yp ys yt scaled := by
  simp only [crps_gaussian_np, sum_fn]
  rw [crps_list_collapse]
  have h := crps_sum_nonneg yp ys yt hs
  cases scaled with
  | false => simpa using h
  | true =>
    simp only [reduceIte]
    exact div_nonneg h (Nat.cast_nonneg _)

theorem crps_gaussian_nonneg_witness :
    0 ≤ crps_gaussian_np [0, 1] [1, 2] [3, 4] true :=
  crps_gaussian_nonneg [0, 1] [1, 2] [3, 4]
    (by intro s h
        simp only [List.mem_cons, List.not_mem_nil, or_false] at h
        rcases h with h | h <;> rw [h] <;> norm_num) true

/-- C6: negating every residual — swapping the roles of `y_pred` and
`y_true` while keeping `y_std` — leaves `crps_gaussian` unchanged. -/
theorem crps_gaussian_residual_symm (yp ys yt : List ℝ) (scaled : Bool) :
    crps_gaussian_np yt ys yp scaled = crps_gaussian_np yp ys yt scaled := by
  simp only [crps_gaussian_np, sum_fn]
  rw [crps_list_collapse, crps_list_collapse]
  rw [zipWith3_rev (fun p s t => -1 * s * crpsAux ((t - p) / s)) yt ys yp]
  have hfun2 : (fun p s t => -1 * s * crpsAux ((p - t) / s))
      = (fun p s t => -1 * s * crpsAux ((t - p) / s)) := by
    funext p s t
    rw [show (p - t) / s = -((t - p) / s) by ring, crpsAux_even]
  rw [show (fun (c b a : ℝ) => -1 * b * crpsAux ((c - a) / b))
      = (fun p s t => -1 * s * crpsAux ((t - p) / s)) from hfun2]

theorem zipWith_map_both {α α' β β' γ : Type} (f : α' → β' → γ) (g : α → α') (h : β → β') :
    ∀ (as : List α) (bs : List β),
      List.zipWith f (as.map g) (bs.map h) = List.zipWith (fun a b => f (g a) (h b)) as bs
  | [], _ => by simp
  | _ :: _, [] => by simp
  | a :: as, b :: bs => by
    simp only [List.map_cons, List.zipWith_cons_cons, zipWith_map_both f g h as bs]

theorem zipWith_congr_fun {α β γ : Type} {f g : α → β → γ} (h : ∀ a b, f a b = g a b) :
    ∀ (as : List α) (bs : List β), List.zipWith f as bs = List.zipWith g as bs
  | [], _ => by simp
  | _ :: _, [] => by simp
  | a :: as, b :: bs => by
    simp only [List.zipWith_cons_cons, h a b, zipWith_congr_fun h as bs]

theorem zipWith3_congr_fun {α β γ δ : Type} {f g : α → β → γ → δ}
    (h : ∀ a b c, f a b c = g a b c) :
    ∀ (as : List α) (bs : List β) (cs : List γ),
      List.zipWith3 f as bs cs = List.zipWith3 g as bs cs
  | [], bs, cs => by cases bs <;> cases cs <;> simp [List.zipWith3]
  | _ :: _, [], cs => by cases cs <;> simp [List.zipWith3]
  | _ :: _, _ :: _, [] => by simp [List.zipWith3]
  | a :: as, b :: bs, c :: cs => by
    simp only [List.zipWith3, List.zipWith_cons_cons, h a b c,
      zipWith3_congr_fun h as bs cs]

/-- C4: `check_score` performs the two-stage reduction exactly: per quantile
level the per-point pinball contributions are averaged over the `N` points
first, the per-quantile means are then summed over the quantile levels, and
`scaled = true` divides by the number of quantile levels (`resolution`),
not by `N·resolution`. -/
theorem check_score_two_stage (yp ys yt : List ℝ) (n : ℕ)
    (h1 : yp.length = n) (h2 : ys.length = n) (h3 : yt.length = n)
    (scaled : Bool) (q0 q1 : ℝ) (res : ℕ) :
    check_score_np yp ys yt scaled q0 q1 res
      = check_score_spec yp ys yt scaled q0 q1 res n := by
  simp only [check_score_np, check_score_spec, sum_fn]
  have hrow : (fun q => mean_fn ((List.zipWith (fun ql t => ql - t)
        (List.zipWith (fun p s => ppf q p s) yp ys) yt).map
          (fun d => ((if d ≥ 0 then (1 : ℝ) else 0) - q) * d)))
      = (fun q =>
          (List.zipWith3 (fun p s t => checkPointSpec q p s t) yp ys yt).sum / (n : ℝ)) := by
    funext q
    rw [check_row_collapse]
    unfold mean_fn
    congr 1
    rw [length_zipWith3, h1, h2, h3]
    simp
  rw [hrow, List.length_map, linspace_length]

theorem check_score_two_stage_witness :
    check_score_np [1, 2] [1, 1] [0, 1] true 0.25 0.75 3
      = check_score_spec [1, 2] [1, 1] [0, 1] true 0.25 0.75 3 2 :=
  check_score_two_stage [1, 2] [1, 1] [0, 1] 2 rfl rfl rfl true 0.25 0.75 3

/-- C9: the numpy/scipy reference path and the torch vectorized path of the
four functions compute the same value (exactly, over the reals), so the two
backends are interchangeable. -/
theorem backend_equivalence (yp ys yt : List ℝ) (hs : ∀ s ∈ ys, 0 < s)
    (scaled : Bool) (q0 q1 p0 p1 : ℝ) (res : ℕ) :
    nll_gaussian_np yp ys yt scaled = nll_gaussian_torch yp ys yt scaled ∧
    crps_gaussian_np yp ys yt scaled = crps_gaussian_torch yp ys yt scaled ∧
    check_score_np yp ys yt scaled q0 q1 res
      = check_score_torch yp ys yt scaled q0 q1 res ∧
    interval_score_np yp ys yt scaled p0 p1 res
      = interval_score_torch yp ys yt scaled p0 p1 res := by
  refine ⟨?_, ?_, rfl, rfl⟩
  · simp only [nll_gaussian_np, nll_gaussian_torch, sum_fn]
    rw [nll_list_congr _ ys hs]
  · simp only [crps_gaussian_np, crps_gaussian_torch, sum_fn]
    rw [zipWith_congr_fun (f := fun s z => -1 * s *
        (1 / Real.sqrt Real.pi - 2 * Real.exp (torchNormalLogProb 0 1 z)
          - z * (2 * Phi z - 1)))
      (g := fun s z => -1 * s *
        (1 / Real.sqrt Real.pi - 2 * stdnormalPDF z - z * (2 * Phi z - 1)))
      (fun s z => by simp only [torch_exp_log_prob])]

theorem backend_equivalence_witness :
    nll_gaussian_np [1] [2] [3] true = nll_gaussian_torch [1] [2] [3] true ∧
    crps_gaussian_np [1] [2] [3] true = crps_gaussian_torch [1] [2] [3] true ∧
    check_score_np [1] [2] [3] true 0.1 0.9 2 = check_score_torch [1] [2] [3] true 0.1 0.9 2 ∧
    interval_score_np [1] [2] [3] true 0.1 0.9 2
      = interval_score_torch [1] [2] [3] true 0.1 0.9 2 :=
  backend_equivalence [1] [2] [3]
    (by intro s h
        simp only [List.mem_cons, List.not_mem_nil, or_false] at h
        rw [h]
        norm_num) true 0.1 0.9 0.1 0.9 2

theorem checkPointSpec_shift (q p s t c : ℝ) :
    checkPointSpec q (p + c) s (t + c) = checkPointSpec q p s t := by
  unfold checkPointSpec
  have h : ppf q (p + c) s - (t + c) = ppf q p s - t := by
    unfold ppf
    ring
  rw [h]

/-- C10: translating `y_pred` and `y_true` by the same constant `c`
(with `y_std` unchanged) leaves all four scores unchanged. -/
theorem translation_invariance (yp ys yt : List ℝ) (c : ℝ) (scaled : Bool)
    (q0 q1 p0 p1 : ℝ) (res : ℕ) :
    nll_gaussian_np (yp.map (· + c)) ys (yt.map (· + c)) scaled
      = nll_gaussian_np yp ys yt scaled ∧
    crps_gaussian_np (yp.map (· + c)) ys (yt.map (· + c)) scaled
      = crps_gaussian_np yp ys yt scaled ∧
    check_score_np (yp.map (· + c)) ys (yt.map (· + c)) scaled q0 q1 res
      = check_score_np yp ys yt scaled q0 q1 res ∧
    interval_score_np (yp.map (· + c)) ys (yt.map (· + c)) scaled p0 p1 res
      = interval_score_np yp ys yt scaled p0 p1 res := by
  refine ⟨?_, ?_, ?_, ?_⟩
  · simp only [nll_gaussian_np, sum_fn]
    rw [zipWith_map_both (fun p t => p - t) (· + c) (· + c) yp yt]
    rw [zipWith_congr_fun (fun a b => by ring : ∀ a b : ℝ, a + c - (b + c) = a - b) yp yt]
  · simp only [crps_gaussian_np, sum_fn]
    rw [zipWith3_map12 (fun t p s => (t - p) / s) (· + c) (· + c) yt yp ys]
    rw [zipWith3_congr_fun
      (fun t p s => by ring : ∀ t p s : ℝ, (t + c - (p + c)) / s = (t - p) / s) yt yp ys]
  · simp only [check_score_np, sum_fn]
    have hrow : (fun q => mean_fn ((List.zipWith (fun ql t => ql - t)
          (List.zipWith (fun p s => ppf q p s) (yp.map (· + c)) ys)
          (yt.map (· + c))).map
            (fun d => ((if d ≥ 0 then (1 : ℝ) else 0) - q) * d)))
        = (fun q => mean_fn ((List.zipWith (fun ql t => ql - t)
          (List.zipWith (fun p s => ppf q p s) yp ys) yt).map
            (fun d => ((if d ≥ 0 then (1 : ℝ) else 0) - q) * d))) := by
      funext q
      rw [check_row_collapse, check_row_collapse]
      rw [zipWith3_map13 (fun p s t => checkPointSpec q p s t) (· + c) (· + c) yp ys yt]
      rw [zipWith3_congr_fun (fun p s t => checkPointSpec_shift q p s t c) yp ys yt]
    rw [hrow]
  · simp only [interval_score_np, sum_fn]
    have hrow : (fun p => mean_fn (List.zipWith3 (fun yp2 s t =>
          (ppf (0.5 + p / 2) yp2 s - ppf (0.5 - p / 2) yp2 s)
            + 2 / (1 - p) * (ppf (0.5 - p / 2) yp2 s - t)
              * (if ppf (0.5 - p / 2) yp2 s - t > 0 then (1 : ℝ) else 0)
            + 2 / (1 - p) * (t - ppf (0.5 + p / 2) yp2 s)
              * (if t - ppf (0.5 + p / 2) yp2 s > 0 then (1 : ℝ) else 0))
          (yp.map (· + c)) ys (yt.map (· + c))))
        = (fun p => mean_fn (List.zipWith3 (fun yp2 s t =>
          (ppf (0.5 + p / 2) yp2 s - ppf (0.5 - p / 2) yp2 s)
            + 2 / (1 - p) * (ppf (0.5 - p / 2) yp2 s - t)
              * (if ppf (0.5 - p / 2) yp2 s - t > 0 then (1 : ℝ) else 0)
            + 2 / (1 - p) * (t - ppf (0.5 + p / 2) yp2 s)
              * (if t - ppf (0.5 + p / 2) yp2 s > 0 then (1 : ℝ) else 0))
          yp ys yt)) := by
      funext p
      rw [zipWith3_map13 _ (· + c) (· + c) yp ys yt]
      refine congrArg mean_fn (zipWith3_congr_fun ?_ yp ys yt)
      intro a s t
      have e1 : ppf (0.5 - p / 2) (a + c) s - (t + c) = ppf (0.5 - p / 2) a s - t := by
        unfold ppf
        ring
      have e2 : t + c - ppf (0.5 + p / 2) (a + c) s = t - ppf (0.5 + p / 2) a s := by
        unfold ppf
        ring
      have e3 : ppf (0.5 + p / 2) (a + c) s - ppf (0.5 - p / 2) (a + c) s
          = ppf (0.5 + p / 2) a s - ppf (0.5 - p / 2) a s := by
        unfold ppf
        ring
      rw [e1, e2, e3]
    rw [hrow]

/-- C8: whenever the three inputs are not all one-dimensional of identical
shape, each of the four operations fails with `ShapeMismatch` and performs
no score computation: the shape check is the first action of each call. -/
theorem shape_mismatch_fails (a b c : NDArray) (scaled : Bool)
    (q0 q1 p0 p1 : ℝ) (res : ℕ)
    (h : ¬(a.shape.length = 1 ∧ b.shape = a.shape ∧ c.shape = a.shape)) :
    nll_gaussian a b c scaled = Except.error ScoreError.ShapeMismatch ∧
    crps_gaussian a b c scaled = Except.error ScoreError.ShapeMismatch ∧
    check_score a b c scaled q0 q1 res = Except.error ScoreError.ShapeMismatch ∧
    interval_score a b c scaled p0 p1 res = Except.error ScoreError.ShapeMismatch := by
  have hb : ¬(assert_is_flat_same_shape a b c = true) := by
    unfold assert_is_flat_same_shape
    simp only [Bool.and_eq_true, beq_iff_eq]
    intro hc
    exact h ⟨hc.1.1, hc.1.2, hc.2⟩
  refine ⟨?_, ?_, ?_, ?_⟩
  · unfold nll_gaussian
    rw [if_neg hb]
  · unfold crps_gaussian
    rw [if_neg hb]
  · unfold check_score
    rw [if_neg hb]
  · unfold interval_score
    rw [if_neg hb]

theorem shape_mismatch_fails_witness :
    nll_gaussian ⟨[2], [1, 2]⟩ ⟨[3], [1, 2, 3]⟩ ⟨[2], [1, 2]⟩ true
      = Except.error ScoreError.ShapeMismatch ∧
    crps_gaussian ⟨[2], [1, 2]⟩ ⟨[3], [1, 2, 3]⟩ ⟨[2], [1, 2]⟩ true
      = Except.error ScoreError.ShapeMismatch ∧
    check_score ⟨[2], [1, 2]⟩ ⟨[3], [1, 2, 3]⟩ ⟨[2], [1, 2]⟩ true 0.01 0.99 99
      = Except.error ScoreError.ShapeMismatch ∧
    interval_score ⟨[2], [1, 2]⟩ ⟨[3], [1, 2, 3]⟩ ⟨[2], [1, 2]⟩ true 0.01 0.99 99
      = Except.error ScoreError.ShapeMismatch :=
  shape_mismatch_fails ⟨[2], [1, 2]⟩ ⟨[3], [1, 2, 3]⟩ ⟨[2], [1, 2]⟩ true 0.01 0.99 0.01 0.99 99
    (by intro hc
        exact absurd hc.2.1 (by decide))
